import Mathlib

/-!
Verification of the aggregation engine in `src/helpers/getDisasterCounts.js`.

The JavaScript module loads four collections (disasters, claims, agents, claim
handlers) at module level and exposes query methods on `SimpleDataTool`.  Here
the collections are explicit parameters.  JavaScript plain objects used as
string- or id-keyed dictionaries are embedded as association lists in key
insertion order (`for...in` and `Object.keys` enumerate non-integer string keys
in insertion order); `undefined` reads are `Option.none`.  JavaScript numbers
on the money and density paths are embedded as exact rationals; `toFixed`
followed by `parseFloat` is half-up decimal rounding.
-/

set_option maxHeartbeats 1000000

/-- A parsed date; only the fields the queries consult (`getFullYear`,
`getMonth`) are kept. -/
structure SimpleDate where
  year : Nat
  month : Nat
  deriving DecidableEq

structure Disaster where
  id : Int
  state : String
  declared_date : SimpleDate
  radius_miles : ℚ
  deriving DecidableEq

structure Claim where
  id : Int
  disaster_id : Int
  agent_assigned_id : Int
  claim_handler_assigned_id : Int
  status : String
  estimate_cost : ℚ
  severity_rating : Int
  deriving DecidableEq

structure Agent where
  id : Int
  state : String
  secondary_language : Option String
  deriving DecidableEq

/-- JavaScript property read `obj[key]`: first (only) binding of the key, or
`none` for `undefined`. -/
def lookupKV {α β : Type} [DecidableEq α] : List (α × β) → α → Option β
  | [], _ => none
  | (k, v) :: rest, key => if k = key then some v else lookupKV rest key

/-- JavaScript property assignment `obj[key] = v`: overwrite in place when the
key exists, otherwise append the new key last (insertion order). -/
def setKV {α β : Type} [DecidableEq α] : List (α × β) → α → β → List (α × β)
  | [], key, v => [(key, v)]
  | (k, w) :: rest, key, v =>
    if k = key then (k, v) :: rest else (k, w) :: setKV rest key v

/-- `if (!obj[k]) { obj[k] = 0; } obj[k]++;` — a missing (or zero) entry
becomes 1, an existing entry is incremented. -/
def bumpKV {α : Type} [DecidableEq α] (m : List (α × Nat)) (k : α) : List (α × Nat) :=
  match lookupKV m k with
  | none => setKV m k 1
  | some v => setKV m k (v + 1)

/-- `if (!obj[k]) { obj[k] = 0; } obj[k] += q;` — accumulate a rational into an
entry (a zero entry is falsy and re-initialised, which changes nothing). -/
def addKV {α : Type} [DecidableEq α] (m : List (α × ℚ)) (k : α) (q : ℚ) : List (α × ℚ) :=
  match lookupKV m k with
  | none => setKV m k q
  | some v => setKV m k (v + q)

def keysOf {α β : Type} (m : List (α × β)) : List α := m.map Prod.fst

/-- `parseFloat(x.toFixed(d))`: rounding to `d` decimal places, half up
(ECMAScript `toFixed` picks the larger integer on a tie). -/
def roundTo (d : Nat) (q : ℚ) : ℚ := (⌊q * 10 ^ d + 1 / 2⌋ : ℤ) / 10 ^ d

/-- The exact rational value of the IEEE-754 double `Math.PI`. -/
def mathPI : ℚ := 884279719003555 / 281474976710656

/-- `getDisasterCounts` (module `getDisasterCounts.js`, exported helper): build
the disaster-count index, mapping each state to its number of disasters. -/
def getDisasterCounts (disasters : List Disaster) : List (String × Nat) :=
  disasters.foldl (fun m d => bumpKV m d.state) []

/-- `getNumDisastersForState`: linear scan of the disaster collection. -/
def getNumDisastersForState (disasters : List Disaster) (state : String) : Nat :=
  (disasters.filter (fun d => d.state = state)).length

/-- `getTotalClaimCostForDisaster`: `null` when no claim matches, otherwise the
summed `estimate_cost` rounded to hundredths. -/
def getTotalClaimCostForDisaster (claims : List Claim) (disasterId : Int) : Option ℚ :=
  let related_claims := claims.filter (fun c => c.disaster_id = disasterId)
  if related_claims.length = 0 then none
  else some (roundTo 2 (related_claims.foldl (fun acc c => acc + c.estimate_cost) 0))

/-- The `for (let state in disasterCounts)` loop of `getStateWithMostDisasters`,
carrying `max_disaster_counter` and `state_with_most_disasters`. -/
def mostLoop : List (String × Nat) → Nat → String → String
  | [], _, best => best
  | (s, c) :: rest, mx, best =>
    if c > mx then mostLoop rest c s
    else if c = mx ∧ s < best then mostLoop rest mx s
    else mostLoop rest mx best

def getStateWithMostDisasters (disasters : List Disaster) : String :=
  mostLoop (getDisasterCounts disasters) 0 ""

/-- The loop of `getStateWithLeastDisasters`; `none` is the initial
`Infinity` of `min_disaster_counter` (every finite count is below it, and
`count === Infinity` is false). -/
def leastLoop : List (String × Nat) → Option Nat → String → String
  | [], _, best => best
  | (s, c) :: rest, mn, best =>
    match mn with
    | none => leastLoop rest (some c) s
    | some m =>
      if c < m then leastLoop rest (some c) s
      else if c = m ∧ s < best then leastLoop rest (some m) s
      else leastLoop rest (some m) best

def getStateWithLeastDisasters (disasters : List Disaster) : String :=
  leastLoop (getDisasterCounts disasters) none ""

/-- Body of the `agents.forEach` in `getMostSpokenAgentLanguageByState`: state
is `(language_frequency, max_language_counter, most_spoken_language)`.
`spoken_language && spoken_language != "English"` skips an absent, empty, or
`"English"` secondary language; otherwise the tally is bumped and the running
maximum updated from the freshly written entry. -/
def langStep (st : List (String × Nat) × Nat × String) (agent : Agent) :
    List (String × Nat) × Nat × String :=
  match agent.secondary_language with
  | none => st
  | some l =>
    if l = "" ∨ l = "English" then st
    else
      let freq := bumpKV st.1 l
      let f := (lookupKV freq l).getD 0
      if f > st.2.1 then (freq, f, l)
      else if f = st.2.1 ∧ l < st.2.2 then (freq, st.2.1, l)
      else (freq, st.2.1, st.2.2)

/-- `getMostSpokenAgentLanguageByState`: empty string when the state has no
agents; otherwise the running most-spoken secondary language. -/
def getMostSpokenAgentLanguageByState (agents : List Agent) (state : String) : String :=
  let stateAgents := agents.filter (fun a => a.state = state)
  if stateAgents.length = 0 then ""
  else (stateAgents.foldl langStep ([], 0, "")).2.2

/-- `getNumOfOpenClaimsForAgentAndSeverity`: `some (-1)` is the out-of-range
sentinel, `none` is `null` (agent has no claims at all). -/
def getNumOfOpenClaimsForAgentAndSeverity (claims : List Claim)
    (agentId minSeverityRating : Int) : Option Int :=
  if minSeverityRating > 10 ∨ minSeverityRating ≤ 0 then some (-1)
  else
    let agentClaims := claims.filter (fun c => c.agent_assigned_id = agentId)
    if agentClaims.length = 0 then none
    else
      let open_claims := agentClaims.filter (fun c => ¬ c.status = "Closed")
      some (open_claims.foldl
        (fun acc c => if c.severity_rating ≥ minSeverityRating then acc + 1 else acc) 0)

/-- `buildMapOfAgentsToTotalClaimCost`: one pass over the agent collection,
assigning each agent id the rounded sum of its claims' `estimate_cost`. -/
def buildMapOfAgentsToTotalClaimCost (agents : List Agent) (claims : List Claim) :
    List (Int × ℚ) :=
  agents.foldl
    (fun m agent =>
      let agentClaims := claims.filter (fun c => c.agent_assigned_id = agent.id)
      let total_claim_cost := agentClaims.foldl (fun acc c => acc + c.estimate_cost) 0
      setKV m agent.id (roundTo 2 total_claim_cost))
    []

/-- Result of `calculateDisasterClaimDensity`: `null`, a number, or the silent
`NaN` produced when `find(...)?.radius_miles` is `undefined` and flows through
`**`, `*`, `/`, `toFixed` and `parseFloat`. -/
inductive DensityResult where
  | null
  | nan
  | val (q : ℚ)
  deriving DecidableEq

/-- `calculateDisasterClaimDensity`: claim count over the disaster's circular
area, rounded to 5 decimal places. -/
def calculateDisasterClaimDensity (claims : List Claim) (disasters : List Disaster)
    (disasterId : Int) : DensityResult :=
  let claims_from_disaster := claims.filter (fun c => c.disaster_id = disasterId)
  if claims_from_disaster.length = 0 then .null
  else
    match disasters.find? (fun d => d.id = disasterId) with
    | none => .nan
    | some d =>
      .val (roundTo 5 ((claims_from_disaster.length : ℚ) / (mathPI * d.radius_miles ^ 2)))

/-- English month names, as `new Date(2000, m - 1).toLocaleString("default",
\x7b month: "long" \x7d)` renders months 1–12. -/
def monthNames : List String :=
  ["January", "February", "March", "April", "May", "June", "July", "August",
   "September", "October", "November", "December"]

def monthName (m : Nat) : String := monthNames.getD (m - 1) ""

/-- The bucket key `` `${month_name} ${year}` `` built from a disaster's
`declared_date`. -/
def monthYearKey (d : SimpleDate) : String := monthName d.month ++ " " ++ toString d.year

/-- The bucket map `month_claim_costs`: claims whose `disaster_id` resolves to
no disaster are skipped, the rest accumulate `estimate_cost` under the month
and year of the disaster's `declared_date`. -/
def monthClaimCosts (claims : List Claim) (disasters : List Disaster) :
    List (String × ℚ) :=
  claims.foldl
    (fun m c =>
      match disasters.find? (fun d => d.id = c.disaster_id) with
      | none => m
      | some d => addKV m (monthYearKey d.declared_date) c.estimate_cost)
    []

/-- Value read `month_claim_costs[k]` inside the sort comparator (always a hit
for keys of the map). -/
def costOf (m : List (String × ℚ)) (k : String) : ℚ := (lookupKV m k).getD 0

/-- The comparator `(a, b) => cost[b] - cost[a] || a.localeCompare(b)` as the
order "a may precede b": strictly larger summed cost first, ties in ascending
string order.  `Array.prototype.sort` with this total, antisymmetric-on-keys
comparator produces the unique sorted permutation, embedded with
`List.insertionSort`. -/
def bucketLE (m : List (String × ℚ)) (a b : String) : Prop :=
  costOf m b < costOf m a ∨ (costOf m a = costOf m b ∧ a ≤ b)

instance (m : List (String × ℚ)) : DecidableRel (bucketLE m) := fun a b =>
  inferInstanceAs (Decidable (_ ∨ _))

/-- `getTopThreeMonthsWithHighestNumOfClaimsDesc`: sort the bucket keys by
descending summed cost (ties ascending lexicographic) and take the first 3. -/
def getTopThreeMonthsWithHighestNumOfClaimsDesc (claims : List Claim)
    (disasters : List Disaster) : List String :=
  let m := monthClaimCosts claims disasters
  (List.insertionSort (bucketLE m) (keysOf m)).take 3

/-! ### Association-list lemmas -/

section KV

variable {α β : Type} [DecidableEq α]

theorem lookupKV_setKV_self (m : List (α × β)) (k : α) (v : β) :
    lookupKV (setKV m k v) k = some v := by
  induction m with
  | nil => simp [setKV, lookupKV]
  | cons p rest ih =>
    obtain ⟨k', v'⟩ := p
    by_cases h : k' = k <;> simp [setKV, lookupKV, h, ih]

theorem lookupKV_setKV_ne (m : List (α × β)) {k k' : α} (v : β) (h : k ≠ k') :
    lookupKV (setKV m k v) k' = lookupKV m k' := by
  induction m with
  | nil => simp [setKV, lookupKV, h]
  | cons p rest ih =>
    obtain ⟨k'', v''⟩ := p
    by_cases h2 : k'' = k <;> simp [setKV, lookupKV, h2, ih, h]

theorem keysOf_nil : keysOf ([] : List (α × β)) = [] := rfl

theorem keysOf_cons (p : α × β) (rest : List (α × β)) :
    keysOf (p :: rest) = p.1 :: keysOf rest := rfl

theorem lookupKV_eq_none_iff (m : List (α × β)) (k : α) :
    lookupKV m k = none ↔ k ∉ keysOf m := by
  induction m with
  | nil => simp [lookupKV, keysOf_nil]
  | cons p rest ih =>
    obtain ⟨k', v'⟩ := p
    by_cases h : k' = k
    · subst h; simp [lookupKV, keysOf_cons]
    · simp [lookupKV, keysOf_cons, h, Ne.symm h, ih]

theorem mem_keysOf_setKV (m : List (α × β)) (k : α) (v : β) (k' : α) :
    k' ∈ keysOf (setKV m k v) ↔ k' ∈ keysOf m ∨ k' = k := by
  induction m with
  | nil => simp [setKV, keysOf_cons, keysOf_nil]
  | cons p rest ih =>
    obtain ⟨k'', v''⟩ := p
    by_cases h : k'' = k
    · subst h
      simp [setKV, keysOf_cons]
      tauto
    · simp [setKV, keysOf_cons, h, ih]
      tauto

theorem keysOf_setKV_of_mem (m : List (α × β)) {k : α} (v : β)
    (h : k ∈ keysOf m) : keysOf (setKV m k v) = keysOf m := by
  induction m with
  | nil => simp [keysOf_nil] at h
  | cons p rest ih =>
    obtain ⟨k'', v''⟩ := p
    by_cases h2 : k'' = k
    · simp [setKV, keysOf_cons, h2]
    · rw [keysOf_cons] at h
      simp only [List.mem_cons] at h
      rcases h with h | h

      · exact absurd h.symm h2
      · simp [setKV, keysOf_cons, h2, ih h]

theorem keysOf_setKV_of_not_mem (m : List (α × β)) {k : α} (v : β)
    (h : k ∉ keysOf m) : keysOf (setKV m k v) = keysOf m ++ [k] := by
  induction m with
  | nil => simp [setKV, keysOf_cons, keysOf_nil]
  | cons p rest ih =>
    obtain ⟨k'', v''⟩ := p
    rw [keysOf_cons] at h
    simp only [List.mem_cons] at h
    push_neg at h
    have h2 : ¬ k'' = k := fun hh => h.1 hh.symm
    simp [setKV, keysOf_cons, h2, ih h.2]

theorem nodup_keysOf_setKV (m : List (α × β)) (k : α) (v : β)
    (h : (keysOf m).Nodup) : (keysOf (setKV m k v)).Nodup := by
  by_cases hk : k ∈ keysOf m
  · rwa [keysOf_setKV_of_mem m v hk]
  · rw [keysOf_setKV_of_not_mem m v hk]
    simpa [List.nodup_append] using ⟨h, hk⟩

theorem lookupKV_bumpKV_self (m : List (α × Nat)) (k : α) :
    lookupKV (bumpKV m k) k = some ((lookupKV m k).getD 0 + 1) := by
  unfold bumpKV
  cases h : lookupKV m k <;> simp [h, lookupKV_setKV_self]

theorem lookupKV_bumpKV_ne (m : List (α × Nat)) {k k' : α} (h : k ≠ k') :
    lookupKV (bumpKV m k) k' = lookupKV m k' := by
  unfold bumpKV
  cases h2 : lookupKV m k <;> simp [lookupKV_setKV_ne m _ h]

theorem mem_keysOf_bumpKV (m : List (α × Nat)) (k k' : α) :
    k' ∈ keysOf (bumpKV m k) ↔ k' ∈ keysOf m ∨ k' = k := by
  unfold bumpKV
  cases h : lookupKV m k <;> simp [mem_keysOf_setKV]

theorem nodup_keysOf_bumpKV (m : List (α × Nat)) (k : α)
    (h : (keysOf m).Nodup) : (keysOf (bumpKV m k)).Nodup := by
  unfold bumpKV
  cases h2 : lookupKV m k <;> exact nodup_keysOf_setKV _ _ _ h

/-- Folding the counting step over a list of keys: the final entry of `k` is
its starting value plus its number of occurrences, with a missing entry created
exactly when `k` occurs. -/
theorem lookupKV_foldl_bumpKV (ks : List α) (m : List (α × Nat)) (k : α) :
    lookupKV (ks.foldl bumpKV m) k =
      match lookupKV m k with
      | some v => some (v + ks.count k)
      | none => if ks.count k = 0 then none else some (ks.count k) := by
  induction ks generalizing m with
  | nil => cases h : lookupKV m k <;> simp [h]
  | cons a ks ih =>
    rw [List.foldl_cons, ih]
    by_cases hak : a = k
    · subst hak
      rw [lookupKV_bumpKV_self]
      cases h : lookupKV m a <;>
        simp [h, List.count_cons, Nat.add_comm, Nat.add_left_comm]
    · rw [lookupKV_bumpKV_ne m hak]
      cases h : lookupKV m k <;>
        simp [h, List.count_cons, Ne.symm hak]

theorem mem_keysOf_foldl_bumpKV (ks : List α) (m : List (α × Nat)) (k : α) :
    k ∈ keysOf (ks.foldl bumpKV m) ↔ k ∈ keysOf m ∨ k ∈ ks := by
  induction ks generalizing m with
  | nil => simp
  | cons a ks ih =>
    rw [List.foldl_cons, ih]
    simp [mem_keysOf_bumpKV]
    tauto

theorem nodup_keysOf_foldl_bumpKV (ks : List α) (m : List (α × Nat))
    (h : (keysOf m).Nodup) : (keysOf (ks.foldl bumpKV m)).Nodup := by
  induction ks generalizing m with
  | nil => exact h
  | cons a ks ih => exact ih _ (nodup_keysOf_bumpKV _ _ h)

end KV

/-! ### The disaster-count index (C2) -/

theorem getDisasterCounts_eq_foldl (disasters : List Disaster) :
    getDisasterCounts disasters = (disasters.map Disaster.state).foldl bumpKV [] := by
  rw [getDisasterCounts, List.foldl_map]

theorem lookupKV_getDisasterCounts (disasters : List Disaster) (s : String) :
    lookupKV (getDisasterCounts disasters) s =
      if getNumDisastersForState disasters s = 0 then none
      else some (getNumDisastersForState disasters s) := by
  have hcount : (disasters.map Disaster.state).count s =
      getNumDisastersForState disasters s := by
    rw [getNumDisastersForState, List.count_eq_countP, List.countP_map]
    rw [← List.countP_eq_length_filter]
    rfl
  rw [getDisasterCounts_eq_foldl, lookupKV_foldl_bumpKV, hcount]
  simp [lookupKV]

theorem mem_of_lookupKV_eq_some {α β : Type} [DecidableEq α] {m : List (α × β)}
    {k : α} {v : β} (h : lookupKV m k = some v) : (k, v) ∈ m := by
  induction m with
  | nil => simp [lookupKV] at h
  | cons p rest ih =>
    obtain ⟨k', v'⟩ := p
    by_cases h2 : k' = k
    · subst h2
      simp [lookupKV] at h
      simp [h]
    · simp [lookupKV, h2] at h
      simp [ih h]

theorem lookupKV_eq_some_of_mem {α β : Type} [DecidableEq α] {m : List (α × β)}
    (hnd : (keysOf m).Nodup) {k : α} {v : β} (h : (k, v) ∈ m) :
    lookupKV m k = some v := by
  induction m with
  | nil => simp at h
  | cons p rest ih =>
    obtain ⟨k', v'⟩ := p
    rw [keysOf_cons] at hnd
    simp only [List.nodup_cons] at hnd
    rcases List.mem_cons.mp h with h | h
    · injection h with hk hv
      subst hk
      subst hv
      simp [lookupKV]
    · have hk : k' ≠ k := by
        rintro rfl
        exact hnd.1 (List.mem_map_of_mem Prod.fst h)
      simp [lookupKV, hk, ih hnd.2 h]

theorem nodup_keysOf_getDisasterCounts (disasters : List Disaster) :
    (keysOf (getDisasterCounts disasters)).Nodup := by
  rw [getDisasterCounts_eq_foldl]
  exact nodup_keysOf_foldl_bumpKV _ _ (by simp [keysOf_nil])

theorem getNumDisastersForState_eq_zero_iff (disasters : List Disaster) (s : String) :
    getNumDisastersForState disasters s = 0 ↔ s ∉ disasters.map Disaster.state := by
  simp [getNumDisastersForState, List.length_eq_zero, List.filter_eq_nil_iff]

/-- An entry of the disaster-count index is exactly a state present in the
disaster collection paired with its scan count. -/
theorem mem_getDisasterCounts_iff (disasters : List Disaster) (s : String) (c : Nat) :
    (s, c) ∈ getDisasterCounts disasters ↔
      s ∈ disasters.map Disaster.state ∧ c = getNumDisastersForState disasters s := by
  constructor
  · intro h
    have hl := lookupKV_eq_some_of_mem (nodup_keysOf_getDisasterCounts disasters) h
    rw [lookupKV_getDisasterCounts] at hl
    by_cases h0 : getNumDisastersForState disasters s = 0
    · simp [h0] at hl
    · simp [h0] at hl
      refine ⟨?_, hl.symm⟩
      by_contra hs
      exact h0 ((getNumDisastersForState_eq_zero_iff disasters s).mpr hs)
  · rintro ⟨hs, rfl⟩
    have h0 : getNumDisastersForState disasters s ≠ 0 := by
      rw [Ne, getNumDisastersForState_eq_zero_iff]
      exact not_not_intro hs
    apply mem_of_lookupKV_eq_some (m := getDisasterCounts disasters)
    rw [lookupKV_getDisasterCounts]
    simp [h0]

/-- **C2.** The disaster-count index refines the linear scan: looking up a
state in the index returns exactly the scan count when the state appears in
the disaster collection and `undefined` otherwise, the index keys are exactly
the states appearing in at least one disaster record, and no key repeats. -/
theorem c2_index_refines_scan (disasters : List Disaster) (s : String) :
    lookupKV (getDisasterCounts disasters) s =
      (if getNumDisastersForState disasters s = 0 then none
       else some (getNumDisastersForState disasters s)) ∧
    (s ∈ keysOf (getDisasterCounts disasters) ↔ s ∈ disasters.map Disaster.state) ∧
    (keysOf (getDisasterCounts disasters)).Nodup := by
  refine ⟨lookupKV_getDisasterCounts disasters s, ?_, nodup_keysOf_getDisasterCounts disasters⟩
  rw [← not_iff_not, ← lookupKV_eq_none_iff, lookupKV_getDisasterCounts,
    ← getNumDisastersForState_eq_zero_iff disasters s]
  by_cases h0 : getNumDisastersForState disasters s = 0 <;> simp [h0]

/-- **C10.** On an empty disaster collection the index is empty and both
state-ranking queries return the empty string. -/
theorem c10_empty_collection :
    getStateWithMostDisasters [] = "" ∧ getStateWithLeastDisasters [] = "" :=
  ⟨rfl, rfl⟩

/-! ### The state-ranking loops (C1) -/

/-- Exact characterisation of the `getStateWithMostDisasters` loop: either no
entry beats the incoming `(best, mx)` pair and `best` is returned, or the
returned name belongs to an entry that beats `(best, mx)` and is beaten by no
entry (higher count first, ties by smaller name). -/
theorem mostLoop_spec (L : List (String × Nat)) : ∀ (mx : Nat) (best : String),
    (mostLoop L mx best = best ∧ ∀ p ∈ L, p.2 < mx ∨ (p.2 = mx ∧ ¬ p.1 < best)) ∨
    (∃ p ∈ L, mostLoop L mx best = p.1 ∧
      (mx < p.2 ∨ (p.2 = mx ∧ p.1 < best)) ∧
      ∀ q ∈ L, q.2 < p.2 ∨ (q.2 = p.2 ∧ ¬ q.1 < p.1)) := by
  induction L with
  | nil =>
    intro mx best
    left
    simp [mostLoop]
  | cons hd tl ih =>
    intro mx best
    obtain ⟨s, c⟩ := hd
    have hstep : mostLoop ((s, c) :: tl) mx best =
        if c > mx then mostLoop tl c s
        else if c = mx ∧ s < best then mostLoop tl mx s
        else mostLoop tl mx best := rfl
    by_cases h1 : c > mx
    · rw [show mostLoop ((s, c) :: tl) mx best = mostLoop tl c s by
        rw [hstep, if_pos h1]]
      rcases ih c s with ⟨heq, hall⟩ | ⟨p, hp, heq, hbeat, hall⟩
      · right
        refine ⟨(s, c), List.mem_cons_self .., heq, Or.inl h1, ?_⟩
        intro q hq
        rcases List.mem_cons.mp hq with rfl | hq
        · exact Or.inr ⟨rfl, lt_irrefl _⟩
        · exact hall q hq
      · right
        refine ⟨p, List.mem_cons_of_mem _ hp, heq, ?_, ?_⟩
        · rcases hbeat with hb | ⟨hb, _⟩
          · exact Or.inl (lt_trans h1 hb)
          · exact Or.inl (hb ▸ h1)
        · intro q hq
          rcases List.mem_cons.mp hq with rfl | hq
          · rcases hbeat with hb | ⟨hb, hb2⟩
            · exact Or.inl hb
            · exact Or.inr ⟨hb.symm, asymm hb2⟩
          · exact hall q hq
    · by_cases h2 : c = mx ∧ s < best
      · rw [show mostLoop ((s, c) :: tl) mx best = mostLoop tl mx s by
          rw [hstep, if_neg h1, if_pos h2]]
        rcases ih mx s with ⟨heq, hall⟩ | ⟨p, hp, heq, hbeat, hall⟩
        · right
          refine ⟨(s, c), List.mem_cons_self .., heq, Or.inr ⟨h2.1, h2.2⟩, ?_⟩
          intro q hq
          rcases List.mem_cons.mp hq with rfl | hq
          · exact Or.inr ⟨rfl, lt_irrefl _⟩
          · rcases hall q hq with hb | ⟨hb, hb2⟩
            · exact Or.inl (h2.1 ▸ hb)
            · exact Or.inr ⟨h2.1 ▸ hb, hb2⟩
        · right
          refine ⟨p, List.mem_cons_of_mem _ hp, heq, ?_, ?_⟩
          · rcases hbeat with hb | ⟨hb, hb2⟩
            · exact Or.inl hb
            · exact Or.inr ⟨hb, lt_trans hb2 h2.2⟩
          · intro q hq
            rcases List.mem_cons.mp hq with rfl | hq
            · rcases hbeat with hb | ⟨hb, hb2⟩
              · exact Or.inl (h2.1 ▸ hb)
              · exact Or.inr ⟨h2.1 ▸ hb.symm ▸ rfl, asymm hb2⟩
            · exact hall q hq
      · rw [show mostLoop ((s, c) :: tl) mx best = mostLoop tl mx best by
          rw [hstep, if_neg h1, if_neg h2]]
        have hcle : c ≤ mx := not_lt.mp h1
        rcases ih mx best with ⟨heq, hall⟩ | ⟨p, hp, heq, hbeat, hall⟩
        · left
          refine ⟨heq, ?_⟩
          intro q hq
          rcases List.mem_cons.mp hq with rfl | hq
          · rcases lt_or_eq_of_le hcle with hlt | heqc
            · exact Or.inl hlt
            · exact Or.inr ⟨heqc, fun hlt => h2 ⟨heqc, hlt⟩⟩
          · exact hall q hq
        · right
          refine ⟨p, List.mem_cons_of_mem _ hp, heq, hbeat, ?_⟩
          intro q hq
          rcases List.mem_cons.mp hq with rfl | hq
          · rcases hbeat with hb | ⟨hb, hb2⟩
            · exact Or.inl (lt_of_le_of_lt hcle hb)
            · rcases lt_or_eq_of_le hcle with hlt | heqc
              · exact Or.inl (hb ▸ hlt)
              · refine Or.inr ⟨heqc.symm ▸ hb.symm ▸ rfl, fun hlt => ?_⟩
                exact h2 ⟨heqc, lt_trans hlt hb2⟩
          · exact hall q hq

/-- Exact characterisation of the `getStateWithLeastDisasters` loop once the
running minimum is finite: lower count first, ties by smaller name. -/
theorem leastLoop_some_spec (L : List (String × Nat)) : ∀ (m : Nat) (best : String),
    (leastLoop L (some m) best = best ∧ ∀ p ∈ L, m < p.2 ∨ (p.2 = m ∧ ¬ p.1 < best)) ∨
    (∃ p ∈ L, leastLoop L (some m) best = p.1 ∧
      (p.2 < m ∨ (p.2 = m ∧ p.1 < best)) ∧
      ∀ q ∈ L, p.2 < q.2 ∨ (q.2 = p.2 ∧ ¬ q.1 < p.1)) := by
  induction L with
  | nil =>
    intro m best
    left
    simp [leastLoop]
  | cons hd tl ih =>
    intro m best
    obtain ⟨s, c⟩ := hd
    have hstep : leastLoop ((s, c) :: tl) (some m) best =
        if c < m then leastLoop tl (some c) s
        else if c = m ∧ s < best then leastLoop tl (some m) s
        else leastLoop tl (some m) best := rfl
    by_cases h1 : c < m
    · rw [show leastLoop ((s, c) :: tl) (some m) best = leastLoop tl (some c) s by
        rw [hstep, if_pos h1]]
      rcases ih c s with ⟨heq, hall⟩ | ⟨p, hp, heq, hbeat, hall⟩
      · right
        refine ⟨(s, c), List.mem_cons_self .., heq, Or.inl h1, ?_⟩
        intro q hq
        rcases List.mem_cons.mp hq with rfl | hq
        · exact Or.inr ⟨rfl, lt_irrefl _⟩
        · exact hall q hq
      · right
        refine ⟨p, List.mem_cons_of_mem _ hp, heq, ?_, ?_⟩
        · rcases hbeat with hb | ⟨hb, _⟩
          · exact Or.inl (lt_trans hb h1)
          · exact Or.inl (hb ▸ h1)
        · intro q hq
          rcases List.mem_cons.mp hq with rfl | hq
          · rcases hbeat with hb | ⟨hb, hb2⟩
            · exact Or.inl hb
            · exact Or.inr ⟨hb.symm, asymm hb2⟩
          · exact hall q hq
    · by_cases h2 : c = m ∧ s < best
      · rw [show leastLoop ((s, c) :: tl) (some m) best = leastLoop tl (some m) s by
          rw [hstep, if_neg h1, if_pos h2]]
        rcases ih m s with ⟨heq, hall⟩ | ⟨p, hp, heq, hbeat, hall⟩
        · right
          refine ⟨(s, c), List.mem_cons_self .., heq, Or.inr ⟨h2.1, h2.2⟩, ?_⟩
          intro q hq
          rcases List.mem_cons.mp hq with rfl | hq
          · exact Or.inr ⟨rfl, lt_irrefl _⟩
          · rcases hall q hq with hb | ⟨hb, hb2⟩
            · exact Or.inl (h2.1.symm ▸ hb)
            · exact Or.inr ⟨hb.trans h2.1.symm, hb2⟩
        · right
          refine ⟨p, List.mem_cons_of_mem _ hp, heq, ?_, ?_⟩
          · rcases hbeat with hb | ⟨hb, hb2⟩
            · exact Or.inl hb
            · exact Or.inr ⟨hb, lt_trans hb2 h2.2⟩
          · intro q hq
            rcases List.mem_cons.mp hq with rfl | hq
            · rcases hbeat with hb | ⟨hb, hb2⟩
              · exact Or.inl (h2.1.symm ▸ hb)
              · exact Or.inr ⟨h2.1.trans hb.symm, asymm hb2⟩
            · exact hall q hq
      · rw [show leastLoop ((s, c) :: tl) (some m) best = leastLoop tl (some m) best by
          rw [hstep, if_neg h1, if_neg h2]]
        have hcge : m ≤ c := not_lt.mp h1
        rcases ih m best with ⟨heq, hall⟩ | ⟨p, hp, heq, hbeat, hall⟩
        · left
          refine ⟨heq, ?_⟩
          intro q hq
          rcases List.mem_cons.mp hq with rfl | hq
          · rcases lt_or_eq_of_le hcge with hlt | heqc
            · exact Or.inl hlt
            · exact Or.inr ⟨heqc.symm, fun hlt => h2 ⟨heqc.symm, hlt⟩⟩
          · exact hall q hq
        · right
          refine ⟨p, List.mem_cons_of_mem _ hp, heq, hbeat, ?_⟩
          intro q hq
          rcases List.mem_cons.mp hq with rfl | hq
          · rcases hbeat with hb | ⟨hb, hb2⟩
            · exact Or.inl (lt_of_lt_of_le hb hcge)
            · rcases lt_or_eq_of_le hcge with hlt | heqc
              · exact Or.inl (hb ▸ hlt)
              · refine Or.inr ⟨heqc.symm.trans hb.symm, fun hlt => ?_⟩
                exact h2 ⟨heqc.symm, lt_trans hlt hb2⟩
          · exact hall q hq

theorem getDisasterCounts_ne_nil {disasters : List Disaster} (h : disasters ≠ []) :
    getDisasterCounts disasters ≠ [] := by
  obtain ⟨d, rest, rfl⟩ := List.exists_cons_of_ne_nil h
  have hs : d.state ∈ (d :: rest).map Disaster.state := by simp
  have hmem : (d.state, getNumDisastersForState (d :: rest) d.state) ∈
      getDisasterCounts (d :: rest) :=
    (mem_getDisasterCounts_iff (d :: rest) d.state _).mpr ⟨hs, rfl⟩
  exact List.ne_nil_of_mem hmem

/-- **C1.** On a nonempty disaster collection, the state with the most
(respectively least) disasters is a state of some disaster record, its scan
count is maximal (respectively minimal) among states appearing in the
collection, and among tied states the lexicographically smallest name is
returned; states with zero disasters are never candidates since both results
appear in the collection. -/
theorem c1_extremal_states (disasters : List Disaster) (h : disasters ≠ []) :
    (getStateWithMostDisasters disasters ∈ disasters.map Disaster.state ∧
     (∀ s ∈ disasters.map Disaster.state,
        getNumDisastersForState disasters s ≤
          getNumDisastersForState disasters (getStateWithMostDisasters disasters)) ∧
     (∀ s ∈ disasters.map Disaster.state,
        getNumDisastersForState disasters s =
          getNumDisastersForState disasters (getStateWithMostDisasters disasters) →
        getStateWithMostDisasters disasters ≤ s)) ∧
    (getStateWithLeastDisasters disasters ∈ disasters.map Disaster.state ∧
     (∀ s ∈ disasters.map Disaster.state,
        getNumDisastersForState disasters (getStateWithLeastDisasters disasters) ≤
          getNumDisastersForState disasters s) ∧
     (∀ s ∈ disasters.map Disaster.state,
        getNumDisastersForState disasters s =
          getNumDisastersForState disasters (getStateWithLeastDisasters disasters) →
        getStateWithLeastDisasters disasters ≤ s)) := by
  constructor
  · -- most disasters
    rw [getStateWithMostDisasters]
    rcases mostLoop_spec (getDisasterCounts disasters) 0 "" with ⟨heq, hall⟩ |
      ⟨p, hp, heq, hbeat, hall⟩
    · exfalso
      obtain ⟨d, rest, rfl⟩ := List.exists_cons_of_ne_nil h
      have hs : d.state ∈ (d :: rest).map Disaster.state := by simp
      have hmem : (d.state, getNumDisastersForState (d :: rest) d.state) ∈
          getDisasterCounts (d :: rest) :=
        (mem_getDisasterCounts_iff (d :: rest) d.state _).mpr ⟨hs, rfl⟩
      have h0 : getNumDisastersForState (d :: rest) d.state ≠ 0 := by
        rw [Ne, getNumDisastersForState_eq_zero_iff]
        exact not_not_intro hs
      rcases hall _ hmem with hlt | ⟨hz, _⟩
      · omega
      · exact h0 hz
    · have hp2 : (p.1, p.2) ∈ getDisasterCounts disasters := by
        rw [Prod.mk.eta]; exact hp
      obtain ⟨hmem, hcnt⟩ := (mem_getDisasterCounts_iff disasters p.1 p.2).mp hp2
      have heq2 : mostLoop (getDisasterCounts disasters) 0 "" = p.1 := heq
      rw [heq2]
      refine ⟨hmem, ?_, ?_⟩
      · intro s hs
        have hq : (s, getNumDisastersForState disasters s) ∈ getDisasterCounts disasters :=
          (mem_getDisasterCounts_iff disasters s _).mpr ⟨hs, rfl⟩
        rcases hall _ hq with hlt | ⟨hz, _⟩
        · have hlt2 : getNumDisastersForState disasters s < p.2 := hlt
          omega
        · have hz2 : getNumDisastersForState disasters s = p.2 := hz
          omega
      · intro s hs hcnteq
        have hq : (s, getNumDisastersForState disasters s) ∈ getDisasterCounts disasters :=
          (mem_getDisasterCounts_iff disasters s _).mpr ⟨hs, rfl⟩
        rcases hall _ hq with hlt | ⟨_, hges⟩
        · have hlt2 : getNumDisastersForState disasters s < p.2 := hlt
          omega
        · exact not_lt.mp hges
  · -- least disasters
    obtain ⟨e, rest, hidx⟩ := List.exists_cons_of_ne_nil (getDisasterCounts_ne_nil h)
    obtain ⟨es, ec⟩ := e
    have hInIdx : ∀ s ∈ disasters.map Disaster.state,
        (s, getNumDisastersForState disasters s) ∈ (es, ec) :: rest := by
      intro s hs
      rw [← hidx]
      exact (mem_getDisasterCounts_iff disasters s _).mpr ⟨hs, rfl⟩
    have hEntry : ∀ (a : String) (b : Nat), (a, b) ∈ (es, ec) :: rest →
        a ∈ disasters.map Disaster.state ∧ b = getNumDisastersForState disasters a := by
      intro a b hab
      rw [← hidx] at hab
      exact (mem_getDisasterCounts_iff disasters a b).mp hab
    have hrw : getStateWithLeastDisasters disasters = leastLoop rest (some ec) es := by
      rw [getStateWithLeastDisasters, hidx]
      rfl
    obtain ⟨hesmem, hec⟩ := hEntry es ec (List.mem_cons_self ..)
    rcases leastLoop_some_spec rest ec es with ⟨heq, hall⟩ | ⟨p, hp, heq, hbeat, hall⟩
    · rw [hrw, heq]
      refine ⟨hesmem, ?_, ?_⟩
      · intro s hs
        rcases List.mem_cons.mp (hInIdx s hs) with hqe | hq
        · injection hqe with h1 h2
          omega
        · rcases hall _ hq with hlt | ⟨hz, _⟩
          · have hlt2 : ec < getNumDisastersForState disasters s := hlt
            omega
          · have hz2 : getNumDisastersForState disasters s = ec := hz
            omega
      · intro s hs hcnteq
        rcases List.mem_cons.mp (hInIdx s hs) with hqe | hq
        · injection hqe with h1 h2
          exact le_of_eq h1.symm
        · rcases hall _ hq with hlt | ⟨_, hges⟩
          · have hlt2 : ec < getNumDisastersForState disasters s := hlt
            omega
          · exact not_lt.mp hges
    · have hp2 : (p.1, p.2) ∈ (es, ec) :: rest := by
        rw [Prod.mk.eta]
        exact List.mem_cons_of_mem _ hp
      obtain ⟨hpmem, hpc⟩ := hEntry p.1 p.2 hp2
      have heq2 : leastLoop rest (some ec) es = p.1 := heq
      rw [hrw, heq2]
      refine ⟨hpmem, ?_, ?_⟩
      · intro s hs
        rcases List.mem_cons.mp (hInIdx s hs) with hqe | hq
        · injection hqe with h1 h2
          rcases hbeat with hb | ⟨hb, _⟩
          · have hb2 : p.2 < ec := hb
            omega
          · have hb2 : p.2 = ec := hb
            omega
        · rcases hall _ hq with hlt | ⟨hz, _⟩
          · have hlt2 : p.2 < getNumDisastersForState disasters s := hlt
            omega
          · have hz2 : getNumDisastersForState disasters s = p.2 := hz
            omega
      · intro s hs hcnteq
        rcases List.mem_cons.mp (hInIdx s hs) with hqe | hq
        · injection hqe with h1 h2
          rcases hbeat with hb | ⟨hb, hb3⟩
          · have hb2 : p.2 < ec := hb
            omega
          · have hb4 : p.1 < es := hb3
            rw [h1]
            exact le_of_lt hb4
        · rcases hall _ hq with hlt | ⟨_, hges⟩
          · have hlt2 : p.2 < getNumDisastersForState disasters s := hlt
            omega
          · exact not_lt.mp hges

/-- Witness for C1: two states tied at the maximum count (`"A"` and `"B"` with
2 disasters each) and a unique minimum (`"C"` with 1). -/
theorem c1_extremal_states_witness :
    ([⟨1, "B", ⟨2023, 1⟩, 10⟩, ⟨2, "A", ⟨2023, 2⟩, 10⟩, ⟨3, "A", ⟨2023, 3⟩, 10⟩,
      ⟨4, "B", ⟨2023, 4⟩, 10⟩, ⟨5, "C", ⟨2023, 5⟩, 10⟩] : List Disaster) ≠ [] ∧
    (getStateWithMostDisasters
        [⟨1, "B", ⟨2023, 1⟩, 10⟩, ⟨2, "A", ⟨2023, 2⟩, 10⟩, ⟨3, "A", ⟨2023, 3⟩, 10⟩,
         ⟨4, "B", ⟨2023, 4⟩, 10⟩, ⟨5, "C", ⟨2023, 5⟩, 10⟩] ∈
      List.map Disaster.state
        [⟨1, "B", ⟨2023, 1⟩, 10⟩, ⟨2, "A", ⟨2023, 2⟩, 10⟩, ⟨3, "A", ⟨2023, 3⟩, 10⟩,
         ⟨4, "B", ⟨2023, 4⟩, 10⟩, ⟨5, "C", ⟨2023, 5⟩, 10⟩]) :=
  ⟨by simp,
   ((c1_extremal_states
      [⟨1, "B", ⟨2023, 1⟩, 10⟩, ⟨2, "A", ⟨2023, 2⟩, 10⟩, ⟨3, "A", ⟨2023, 3⟩, 10⟩,
       ⟨4, "B", ⟨2023, 4⟩, 10⟩, ⟨5, "C", ⟨2023, 5⟩, 10⟩] (by simp)).1).1⟩


/-! ### Fold helpers -/

/-- The `reduce((acc, x) => acc + cost(x), 0)` pattern as a mapped sum. -/
theorem foldl_add_map {α : Type} (f : α → ℚ) :
    ∀ (l : List α) (acc : ℚ), l.foldl (fun a c => a + f c) acc = acc + (l.map f).sum := by
  intro l
  induction l with
  | nil => intro acc; simp
  | cons c rest ih =>
    intro acc
    rw [List.foldl_cons, ih, List.map_cons, List.sum_cons]
    ring

/-- The `reduce((acc, x) => p(x) ? acc + 1 : acc, 0)` pattern as a filter
length. -/
theorem foldl_count {α : Type} (p : α → Prop) [DecidablePred p] :
    ∀ (l : List α) (acc : ℤ),
      l.foldl (fun a c => if p c then a + 1 else a) acc =
        acc + ((l.filter (fun c => p c)).length : ℤ) := by
  intro l
  induction l with
  | nil => intro acc; simp
  | cons c rest ih =>
    intro acc
    by_cases h : p c
    · rw [List.foldl_cons, if_pos h, ih]
      simp [h]
      ring
    · rw [List.foldl_cons, if_neg h, ih]
      simp [h]

/-! ### Open claims for agent at minimum severity (C3) -/

/-- **C3.** `getNumOfOpenClaimsForAgentAndSeverity` returns the `-1` sentinel
exactly on an out-of-range severity, `null` when the agent has no claims at
all (open or closed), and otherwise the number of the agent's claims that are
not `"Closed"` and have severity at least the minimum — `0` when all its
claims at or above the threshold are closed. -/
theorem c3_open_claims_cases (claims : List Claim) (agentId minSeverityRating : Int) :
    ((minSeverityRating > 10 ∨ minSeverityRating ≤ 0) →
      getNumOfOpenClaimsForAgentAndSeverity claims agentId minSeverityRating = some (-1)) ∧
    (1 ≤ minSeverityRating → minSeverityRating ≤ 10 →
      (((claims.filter (fun c => c.agent_assigned_id = agentId)).length = 0 →
        getNumOfOpenClaimsForAgentAndSeverity claims agentId minSeverityRating = none) ∧
      ((claims.filter (fun c => c.agent_assigned_id = agentId)).length ≠ 0 →
        getNumOfOpenClaimsForAgentAndSeverity claims agentId minSeverityRating =
          some (((claims.filter (fun c => c.agent_assigned_id = agentId ∧
            ¬ c.status = "Closed" ∧ c.severity_rating ≥ minSeverityRating)).length : Int))))) := by
  refine ⟨fun h => ?_, fun h1 h2 => ⟨fun h0 => ?_, fun h0 => ?_⟩⟩
  · rw [getNumOfOpenClaimsForAgentAndSeverity, if_pos h]
  · have hrange : ¬ (minSeverityRating > 10 ∨ minSeverityRating ≤ 0) := by omega
    rw [getNumOfOpenClaimsForAgentAndSeverity, if_neg hrange]
    simp only
    rw [if_pos h0]
  · have hrange : ¬ (minSeverityRating > 10 ∨ minSeverityRating ≤ 0) := by omega
    rw [getNumOfOpenClaimsForAgentAndSeverity, if_neg hrange]
    simp only
    rw [if_neg h0]
    rw [foldl_count (fun c : Claim => c.severity_rating ≥ minSeverityRating)]
    rw [zero_add, List.filter_filter, List.filter_filter]
    congr 1
    rw [Nat.cast_inj]
    congr 1
    apply List.filter_congr
    intro c _
    by_cases ha : c.agent_assigned_id = agentId <;>
      by_cases hb : c.status = "Closed" <;>
        by_cases hc : c.severity_rating ≥ minSeverityRating <;>
          simp [ha, hb, hc]

/-- Witness for C3: severity 0 and 11 hit the sentinel, an agent with no
claims hits `null`, and an agent whose only claim at or above the threshold is
closed gets 0. -/
theorem c3_open_claims_cases_witness :
    getNumOfOpenClaimsForAgentAndSeverity
        [⟨1, 1, 7, 1, "Closed", 100, 5⟩, ⟨2, 1, 7, 1, "Open", 50, 3⟩] 7 11 = some (-1) ∧
    getNumOfOpenClaimsForAgentAndSeverity
        [⟨1, 1, 7, 1, "Closed", 100, 5⟩, ⟨2, 1, 7, 1, "Open", 50, 3⟩] 7 0 = some (-1) ∧
    getNumOfOpenClaimsForAgentAndSeverity
        [⟨1, 1, 7, 1, "Closed", 100, 5⟩, ⟨2, 1, 7, 1, "Open", 50, 3⟩] 99 5 = none ∧
    getNumOfOpenClaimsForAgentAndSeverity
        [⟨1, 1, 7, 1, "Closed", 100, 5⟩, ⟨2, 1, 7, 1, "Open", 50, 3⟩] 7 4 = some 0 := by
  refine ⟨(c3_open_claims_cases _ 7 11).1 (by norm_num),
    (c3_open_claims_cases _ 7 0).1 (by norm_num),
    ((c3_open_claims_cases _ 99 5).2 (by norm_num) (by norm_num)).1 (by decide), ?_⟩
  rw [((c3_open_claims_cases
    [⟨1, 1, 7, 1, "Closed", 100, 5⟩, ⟨2, 1, 7, 1, "Open", 50, 3⟩] 7 4).2
      (by norm_num) (by norm_num)).2 (by decide)]
  decide

/-! ### Total claim cost for a disaster (C8) -/

/-- **C8.** `getTotalClaimCostForDisaster` is `null` when no claim references
the disaster, and otherwise the exact sum of the matching claims'
`estimate_cost` rounded half-up to hundredths. -/
theorem c8_total_cost_rounding (claims : List Claim) (disasterId : Int) :
    (claims.filter (fun c => c.disaster_id = disasterId) = [] →
      getTotalClaimCostForDisaster claims disasterId = none) ∧
    (claims.filter (fun c => c.disaster_id = disasterId) ≠ [] →
      getTotalClaimCostForDisaster claims disasterId =
        some (roundTo 2
          (((claims.filter (fun c => c.disaster_id = disasterId)).map
            Claim.estimate_cost).sum))) := by
  constructor
  · intro h
    simp only [getTotalClaimCostForDisaster]
    rw [if_pos (by rw [h]; rfl)]
  · intro h
    simp only [getTotalClaimCostForDisaster]
    rw [if_neg (by simpa [List.length_eq_zero] using h)]
    rw [foldl_add_map Claim.estimate_cost, zero_add]

/-- Witness for C8: costs `[10.005, 5.00]` sum to 15.005 and round half-up to
15.01; a disaster id with no claims yields `null`. -/
theorem c8_total_cost_rounding_witness :
    getTotalClaimCostForDisaster
      [⟨1, 1, 1, 1, "Open", 10.005, 5⟩, ⟨2, 1, 1, 1, "Open", 5, 5⟩] 1 = some 15.01 ∧
    getTotalClaimCostForDisaster
      [⟨1, 1, 1, 1, "Open", 10.005, 5⟩, ⟨2, 1, 1, 1, "Open", 5, 5⟩] 2 = none := by
  constructor
  · rw [(c8_total_cost_rounding
      [⟨1, 1, 1, 1, "Open", 10.005, 5⟩, ⟨2, 1, 1, 1, "Open", 5, 5⟩] 1).2 (by decide)]
    norm_num [roundTo]
  · exact (c8_total_cost_rounding _ 2).1 (by decide)

/-! ### Disaster claim density (C7, C9) -/

/-- **C7.** `calculateDisasterClaimDensity` returns `null` exactly when no
claim references the disaster id; when the disaster exists and has claims it
returns the claim count over `Math.PI` times the squared radius, rounded to 5
decimal places. -/
theorem c7_claim_density (claims : List Claim) (disasters : List Disaster)
    (disasterId : Int) :
    ((claims.filter (fun c => c.disaster_id = disasterId)).length = 0 ↔
      calculateDisasterClaimDensity claims disasters disasterId = DensityResult.null) ∧
    (∀ d : Disaster, disasters.find? (fun d2 => d2.id = disasterId) = some d →
      (claims.filter (fun c => c.disaster_id = disasterId)).length ≠ 0 →
      calculateDisasterClaimDensity claims disasters disasterId =
        DensityResult.val (roundTo 5
          (((claims.filter (fun c => c.disaster_id = disasterId)).length : ℚ) /
            (mathPI * d.radius_miles ^ 2)))) := by
  constructor
  · constructor
    · intro h
      simp only [calculateDisasterClaimDensity]
      rw [if_pos h]
    · intro h
      by_contra h0
      simp only [calculateDisasterClaimDensity] at h
      rw [if_neg h0] at h
      cases hf : disasters.find? (fun d2 => d2.id = disasterId) with
      | none => rw [hf] at h; exact DensityResult.noConfusion h
      | some d => rw [hf] at h; exact DensityResult.noConfusion h
  · intro d hf h0
    simp only [calculateDisasterClaimDensity]
    rw [if_neg h0, hf]

/-- Witness for C7: 4 claims on a disaster of radius 10 give density
`4 / (Math.PI * 100)` which rounds to 0.01273. -/
theorem c7_claim_density_witness :
    calculateDisasterClaimDensity
      [⟨1, 1, 1, 1, "Open", 10, 5⟩, ⟨2, 1, 1, 1, "Open", 10, 5⟩,
       ⟨3, 1, 1, 1, "Open", 10, 5⟩, ⟨4, 1, 1, 1, "Open", 10, 5⟩]
      [⟨1, "California", ⟨2023, 1⟩, 10⟩] 1 = DensityResult.val 0.01273 := by
  rw [(c7_claim_density
      [⟨1, 1, 1, 1, "Open", 10, 5⟩, ⟨2, 1, 1, 1, "Open", 10, 5⟩,
       ⟨3, 1, 1, 1, "Open", 10, 5⟩, ⟨4, 1, 1, 1, "Open", 10, 5⟩]
      [⟨1, "California", ⟨2023, 1⟩, 10⟩] 1).2
    ⟨1, "California", ⟨2023, 1⟩, 10⟩ (by rfl) (by decide)]
  norm_num [roundTo, mathPI]

/-- **C9.** When at least one claim references a disaster id that is absent
from the disaster collection, the density query silently returns the `NaN`
that flows out of the `undefined` radius — neither `null` nor an error. -/
theorem c9_dangling_disaster_nan (claims : List Claim) (disasters : List Disaster)
    (disasterId : Int)
    (h1 : (claims.filter (fun c => c.disaster_id = disasterId)).length ≠ 0)
    (h2 : ∀ d ∈ disasters, d.id ≠ disasterId) :
    calculateDisasterClaimDensity claims disasters disasterId = DensityResult.nan := by
  simp only [calculateDisasterClaimDensity]
  rw [if_neg h1]
  have hf : disasters.find? (fun d2 => d2.id = disasterId) = none := by
    rw [List.find?_eq_none]
    intro d hd
    simpa using h2 d hd
  rw [hf]

/-- Witness for C9: one claim referencing disaster 5, whose record is not in
the (here singleton) disaster collection. -/
theorem c9_dangling_disaster_nan_witness :
    calculateDisasterClaimDensity [⟨1, 5, 1, 1, "Open", 100, 5⟩]
      [⟨1, "California", ⟨2023, 1⟩, 10⟩] 5 = DensityResult.nan :=
  c9_dangling_disaster_nan _ _ 5 (by decide) (by decide)

/-! ### Agent-to-total-claim-cost map (C6) -/

theorem lookupKV_foldl_setKV {α β γ : Type} [DecidableEq α] (key : γ → α) (v : α → β) :
    ∀ (l : List γ) (m : List (α × β)) (i : α),
      lookupKV (l.foldl (fun m x => setKV m (key x) (v (key x))) m) i =
        if i ∈ l.map key then some (v i) else lookupKV m i := by
  intro l
  induction l with
  | nil => intro m i; simp
  | cons a rest ih =>
    intro m i
    rw [List.foldl_cons, ih]
    by_cases hi : i ∈ rest.map key
    · simp [hi]
    · rw [if_neg hi]
      by_cases ha : key a = i
    
      · rw [ha, lookupKV_setKV_self]
        simp [← ha]
      · rw [lookupKV_setKV_ne m _ ha]
        have : i ∉ (a :: rest).map key := by
          simp only [List.map_cons, List.mem_cons]
          rintro (h | h)
          · exact ha h.symm
          · exact hi h
        rw [if_neg this]

theorem nodup_keysOf_foldl_setKV {α β γ : Type} [DecidableEq α] (key : γ → α) (v : γ → β) :
    ∀ (l : List γ) (m : List (α × β)), (keysOf m).Nodup →
      (keysOf (l.foldl (fun m x => setKV m (key x) (v x)) m)).Nodup := by
  intro l
  induction l with
  | nil => intro m h; exact h
  | cons a rest ih =>
    intro m h
    rw [List.foldl_cons]
    exact ih _ (nodup_keysOf_setKV _ _ _ h)

theorem buildMap_eq_foldl_setKV (agents : List Agent) (claims : List Claim) :
    buildMapOfAgentsToTotalClaimCost agents claims =
      agents.foldl
        (fun m agent => setKV m agent.id
          (roundTo 2 (((claims.filter (fun c => c.agent_assigned_id = agent.id)).map
            Claim.estimate_cost).sum)))
        [] := by
  simp only [buildMapOfAgentsToTotalClaimCost, foldl_add_map, zero_add]

/-- **C6.** The agent-to-total-claim-cost map binds exactly the ids of loaded
agents — each to the half-up-rounded sum of the `estimate_cost` of the claims
assigned to it (0 for an agent with no claims, since the empty sum rounds to
0) — with no duplicate keys; ids of no loaded agent are absent. -/
theorem c6_agent_cost_map (agents : List Agent) (claims : List Claim) (i : Int) :
    lookupKV (buildMapOfAgentsToTotalClaimCost agents claims) i =
      (if i ∈ agents.map Agent.id then
        some (roundTo 2 (((claims.filter (fun c => c.agent_assigned_id = i)).map
          Claim.estimate_cost).sum))
       else none) ∧
    (keysOf (buildMapOfAgentsToTotalClaimCost agents claims)).Nodup := by
  constructor
  · rw [buildMap_eq_foldl_setKV,
      lookupKV_foldl_setKV Agent.id
        (fun j => roundTo 2 (((claims.filter (fun c => c.agent_assigned_id = j)).map
          Claim.estimate_cost).sum))
        agents [] i]
    rfl
  · rw [buildMap_eq_foldl_setKV]
    exact nodup_keysOf_foldl_setKV Agent.id _ agents [] (by simp [keysOf])

/-! ### Most spoken agent language by state (C5) -/

theorem mem_setKV_weak {α β : Type} [DecidableEq α] {m : List (α × β)} {k : α} {v : β}
    {p : α × β} (h : p ∈ setKV m k v) : p = (k, v) ∨ p ∈ m := by
  induction m with
  | nil => simpa [setKV] using h
  | cons q rest ih =>
    obtain ⟨k', v'⟩ := q
    by_cases h2 : k' = k
    · rw [setKV, if_pos h2] at h
      rcases List.mem_cons.mp h with h3 | h3
      · left; rw [h3, h2]
      · right; exact List.mem_cons_of_mem _ h3
    · rw [setKV, if_neg h2] at h
      rcases List.mem_cons.mp h with h3 | h3
      · right; exact h3 ▸ List.mem_cons_self ..
      · rcases ih h3 with h4 | h4
        · left; exact h4
        · right; exact List.mem_cons_of_mem _ h4

theorem mem_setKV_of_ne {α β : Type} [DecidableEq α] {m : List (α × β)} {k : α} {v : β}
    {p : α × β} (hp : p ∈ m) (hne : p.1 ≠ k) : p ∈ setKV m k v := by
  induction m with
  | nil => simp at hp
  | cons q rest ih =>
    obtain ⟨k', v'⟩ := q
    rcases List.mem_cons.mp hp with h3 | h3
    · have hk' : k' ≠ k := fun hkk => hne (by rw [h3]; exact hkk)
      rw [setKV, if_neg hk']
      exact h3 ▸ List.mem_cons_self ..
    · by_cases h2 : k' = k
      · rw [setKV, if_pos h2]
        exact List.mem_cons_of_mem _ h3
      · rw [setKV, if_neg h2]
        exact List.mem_cons_of_mem _ (ih h3)

theorem bumpKV_eq_setKV {α : Type} [DecidableEq α] (m : List (α × Nat)) (k : α) :
    bumpKV m k = setKV m k ((lookupKV m k).getD 0 + 1) := by
  unfold bumpKV
  cases h : lookupKV m k <;> simp [h]

theorem mem_bumpKV_of_ne {α : Type} [DecidableEq α] {m : List (α × Nat)} {k : α}
    {p : α × Nat} (hp : p ∈ m) (hne : p.1 ≠ k) : p ∈ bumpKV m k := by
  rw [bumpKV_eq_setKV]
  exact mem_setKV_of_ne hp hne

theorem langStep_none (st : List (String × Nat) × Nat × String) (agent : Agent)
    (hsl : agent.secondary_language = none) : langStep st agent = st := by
  simp only [langStep, hsl]

theorem langStep_excluded (st : List (String × Nat) × Nat × String) (agent : Agent)
    (l : String) (hsl : agent.secondary_language = some l)
    (hg : l = "" ∨ l = "English") : langStep st agent = st := by
  simp only [langStep, hsl]
  rw [if_pos hg]

theorem langStep_some (st : List (String × Nat) × Nat × String) (agent : Agent)
    (l : String) (hsl : agent.secondary_language = some l)
    (hg : ¬ (l = "" ∨ l = "English")) :
    langStep st agent =
      if (lookupKV (bumpKV st.1 l) l).getD 0 > st.2.1 then
        (bumpKV st.1 l, (lookupKV (bumpKV st.1 l) l).getD 0, l)
      else if (lookupKV (bumpKV st.1 l) l).getD 0 = st.2.1 ∧ l < st.2.2 then
        (bumpKV st.1 l, st.2.1, l)
      else (bumpKV st.1 l, st.2.1, st.2.2) := by
  simp only [langStep, hsl]
  rw [if_neg hg]

/-- Loop invariant of the language scan: the running pair is `(0, "")` while
the tally object is empty, and afterwards names an entry of the tally that no
entry beats (strictly greater tally, or equal tally and smaller name). -/
def LangInv (st : List (String × Nat) × Nat × String) : Prop :=
  (keysOf st.1).Nodup ∧
  ((st.1 = [] ∧ st.2.1 = 0 ∧ st.2.2 = "") ∨
   ((st.2.2, st.2.1) ∈ st.1 ∧
    ∀ p ∈ st.1, p.2 ≤ st.2.1 ∧ (p.2 = st.2.1 → ¬ p.1 < st.2.2)))

theorem langStep_inv (st : List (String × Nat) × Nat × String) (agent : Agent)
    (h : LangInv st) : LangInv (langStep st agent) := by
  cases hsl : agent.secondary_language with
  | none => rw [langStep_none st agent hsl]; exact h
  | some l =>
    by_cases hg : l = "" ∨ l = "English"
    · rw [langStep_excluded st agent l hsl hg]; exact h
    · rw [langStep_some st agent l hsl hg]
      have hfval : lookupKV (bumpKV st.1 l) l = some ((lookupKV st.1 l).getD 0 + 1) :=
        lookupKV_bumpKV_self _ _
      have hfeq : (lookupKV (bumpKV st.1 l) l).getD 0 = (lookupKV st.1 l).getD 0 + 1 := by
        rw [hfval]; rfl
      have hmemlf : (l, (lookupKV (bumpKV st.1 l) l).getD 0) ∈ bumpKV st.1 l := by
        rw [hfeq]
        exact mem_of_lookupKV_eq_some hfval
      have hnd2 : (keysOf (bumpKV st.1 l)).Nodup := nodup_keysOf_bumpKV _ _ h.1
      have hmem_cases : ∀ p ∈ bumpKV st.1 l,
          p = (l, (lookupKV (bumpKV st.1 l) l).getD 0) ∨ p ∈ st.1 := by
        intro p hp
        rw [bumpKV_eq_setKV] at hp
        rcases mem_setKV_weak hp with h1 | h1
        · left; rw [h1, hfeq]
        · right; exact h1
      by_cases h1 : (lookupKV (bumpKV st.1 l) l).getD 0 > st.2.1
      · rw [if_pos h1]
        refine ⟨hnd2, Or.inr ⟨hmemlf, ?_⟩⟩
        intro p hp
        rcases hmem_cases p hp with rfl | hp2
        · exact ⟨le_refl _, fun _ => lt_irrefl _⟩
        · rcases h.2 with ⟨hnil, _, _⟩ | ⟨_, hdom⟩
          · rw [hnil] at hp2; simp at hp2
          · have hf1 : st.2.1 < (lookupKV (bumpKV st.1 l) l).getD 0 := h1
            have hd1 : p.2 ≤ st.2.1 := (hdom p hp2).1
            refine ⟨?_, fun hpe => ?_⟩
            · show p.2 ≤ (lookupKV (bumpKV st.1 l) l).getD 0
              omega
            · exfalso
              have hpe2 : p.2 = (lookupKV (bumpKV st.1 l) l).getD 0 := hpe
              omega
      · rw [if_neg h1]
        have hfge1 : 1 ≤ (lookupKV (bumpKV st.1 l) l).getD 0 := by omega
        have hne : st.1 ≠ [] := by
          intro hnil
          rcases h.2 with ⟨_, hmx, _⟩ | ⟨hbm, _⟩
          · omega
          · rw [hnil] at hbm; simp at hbm
        rcases h.2 with ⟨hnil, _, _⟩ | ⟨hbm, hdom⟩
        · exact absurd hnil hne
        by_cases h2 : (lookupKV (bumpKV st.1 l) l).getD 0 = st.2.1 ∧ l < st.2.2
        · rw [if_pos h2]
          refine ⟨hnd2, Or.inr ⟨?_, ?_⟩⟩
          · rw [← h2.1]
            exact hmemlf
          · intro p hp
            rcases hmem_cases p hp with rfl | hp2
            · exact ⟨le_of_eq h2.1, fun _ => lt_irrefl _⟩
            · have hd := hdom p hp2
              refine ⟨hd.1, fun hpe => ?_⟩
              have hble : st.2.2 ≤ p.1 := not_lt.mp (hd.2 hpe)
              exact not_lt.mpr (le_of_lt (lt_of_lt_of_le h2.2 hble))
        · rw [if_neg h2]
          have hbne : st.2.2 ≠ l := by
            intro hbe
            have hlk : lookupKV st.1 l = some st.2.1 :=
              lookupKV_eq_some_of_mem h.1 (hbe ▸ hbm)
            rw [hlk] at hfeq
            simp only [Option.getD_some] at hfeq
            omega
          refine ⟨hnd2, Or.inr ⟨mem_bumpKV_of_ne hbm hbne, ?_⟩⟩
          intro p hp
          rcases hmem_cases p hp with rfl | hp2
          · refine ⟨not_lt.mp h1, fun hpe => fun hll => h2 ⟨hpe, hll⟩⟩
          · exact hdom p hp2

theorem langInv_foldl : ∀ (xs : List Agent) (st : List (String × Nat) × Nat × String),
    LangInv st → LangInv (xs.foldl langStep st) := by
  intro xs
  induction xs with
  | nil => intro st h; exact h
  | cons a rest ih =>
    intro st h
    rw [List.foldl_cons]
    exact ih _ (langStep_inv st a h)

/-- The tally object built by the language scan is the counting fold over the
qualifying secondary languages of the scanned agents, in order. -/
theorem foldl_langStep_fst : ∀ (xs : List Agent) (st : List (String × Nat) × Nat × String),
    (xs.foldl langStep st).1 =
      ((xs.filterMap Agent.secondary_language).filter
        (fun l => ¬ (l = "" ∨ l = "English"))).foldl bumpKV st.1 := by
  intro xs
  induction xs with
  | nil => intro st; rfl
  | cons a rest ih =>
    intro st
    rw [List.foldl_cons]
    cases hsl : a.secondary_language with
    | none =>
      rw [langStep_none st a hsl, List.filterMap_cons_none hsl]
      exact ih st
    | some l =>
      rw [List.filterMap_cons_some hsl]
      by_cases hg : l = "" ∨ l = "English"
      · rw [langStep_excluded st a l hsl hg,
          List.filter_cons_of_neg (by simp; intro hne; exact hg.resolve_left hne)]
        exact ih st
      · rw [langStep_some st a l hsl hg, List.filter_cons_of_pos (by simpa using hg),
          List.foldl_cons]
        split_ifs with h1 h2 <;> exact ih _

theorem count_qualLangs (l : String) (hg : ¬ (l = "" ∨ l = "English")) :
    ∀ xs : List Agent,
      ((xs.filterMap Agent.secondary_language).filter
        (fun l2 => ¬ (l2 = "" ∨ l2 = "English"))).count l =
        (xs.filter (fun a => a.secondary_language = some l)).length := by
  intro xs
  induction xs with
  | nil => rfl
  | cons a rest ih =>
    cases hsl : a.secondary_language with
    | none =>
      rw [List.filterMap_cons_none hsl, List.filter_cons_of_neg (by simp [hsl])]
      exact ih
    | some l2 =>
      rw [List.filterMap_cons_some hsl]
      by_cases hg2 : l2 = "" ∨ l2 = "English"
      · rw [List.filter_cons_of_neg (by simp; intro hne2; exact hg2.resolve_left hne2)]
        have hne : ¬ a.secondary_language = some l := by
          rw [hsl]
          intro hc
          injection hc with hc
          exact hg (hc ▸ hg2)
        rw [List.filter_cons_of_neg (by simpa using hne)]
        exact ih
      · rw [List.filter_cons_of_pos (by simpa using hg2)]
        by_cases hll : l2 = l
        · subst hll
          rw [List.count_cons_self, List.filter_cons_of_pos (by simp [hsl]),
            List.length_cons, ih]
        · rw [List.count_cons_of_ne (fun hc => hll hc.symm)]
          have hne : ¬ a.secondary_language = some l := by
            rw [hsl]
            intro hc
            injection hc with hc
            exact hll hc
          rw [List.filter_cons_of_neg (by simpa using hne)]
          exact ih

/-- Spec-side tally: number of agents of the given state whose
`secondary_language` is exactly `l`. -/
def langTally (agents : List Agent) (state l : String) : Nat :=
  ((agents.filter (fun a => a.state = state)).filter
    (fun a => a.secondary_language = some l)).length

/-- **C5.** `getMostSpokenAgentLanguageByState` tallies only agents of the
given state, never counts an absent, empty, or `"English"` secondary
language, returns the empty string when the state has no agents or no agent
has a qualifying secondary language, and otherwise returns a qualifying
language of maximal tally that is lexicographically smallest among the tied
maxima. -/
theorem c5_most_spoken_language (agents : List Agent) (state : String) :
    (agents.filter (fun a => a.state = state) = [] →
      getMostSpokenAgentLanguageByState agents state = "") ∧
    ((∀ l : String, l ≠ "" → l ≠ "English" → langTally agents state l = 0) →
      getMostSpokenAgentLanguageByState agents state = "") ∧
    (∀ l : String, l ≠ "" → l ≠ "English" → langTally agents state l ≠ 0 →
      (getMostSpokenAgentLanguageByState agents state ≠ "" ∧
       getMostSpokenAgentLanguageByState agents state ≠ "English" ∧
       ∀ l2 : String, l2 ≠ "" → l2 ≠ "English" →
         (langTally agents state l2 ≤
            langTally agents state (getMostSpokenAgentLanguageByState agents state) ∧
          (langTally agents state l2 =
             langTally agents state (getMostSpokenAgentLanguageByState agents state) →
           getMostSpokenAgentLanguageByState agents state ≤ l2)))) := by
  by_cases hSA : agents.filter (fun a => a.state = state) = []
  · have hres : getMostSpokenAgentLanguageByState agents state = "" := by
      simp only [getMostSpokenAgentLanguageByState]
      rw [if_pos (by rw [hSA]; rfl)]
    refine ⟨fun _ => hres, fun _ => hres, fun l hl1 hl2 htl => absurd ?_ htl⟩
    simp [langTally, hSA]
  · have hlen : ¬ (agents.filter (fun a => a.state = state)).length = 0 := by
      simpa [List.length_eq_zero] using hSA
    have hres : getMostSpokenAgentLanguageByState agents state =
        ((agents.filter (fun a => a.state = state)).foldl langStep ([], 0, "")).2.2 := by
      simp only [getMostSpokenAgentLanguageByState]
      rw [if_neg hlen]
    have hInv := langInv_foldl (agents.filter (fun a => a.state = state)) ([], 0, "")
      ⟨by simp [keysOf], Or.inl ⟨rfl, rfl, rfl⟩⟩
    have hlook : ∀ l : String, ¬ (l = "" ∨ l = "English") →
        lookupKV ((agents.filter (fun a => a.state = state)).foldl
            langStep ([], 0, "")).1 l =
          if langTally agents state l = 0 then none
          else some (langTally agents state l) := by
      intro l hg
      rw [foldl_langStep_fst, lookupKV_foldl_bumpKV, count_qualLangs l hg]
      simp only [langTally, lookupKV]
    have hkeyq : ∀ x : String,
        x ∈ keysOf ((agents.filter (fun a => a.state = state)).foldl
          langStep ([], 0, "")).1 →
        ¬ (x = "" ∨ x = "English") := by
      intro x hx
      rw [foldl_langStep_fst, mem_keysOf_foldl_bumpKV] at hx
      rcases hx with hx | hx
      · simp [keysOf] at hx
      · simpa using (List.mem_filter.mp hx).2
    refine ⟨fun h => absurd h hSA, ?_, ?_⟩
    · intro hall
      rw [hres]
      rcases hInv.2 with ⟨_, _, hbe⟩ | ⟨hbm, _⟩
      · exact hbe
      · exfalso
        have hq := hkeyq _ (List.mem_map_of_mem Prod.fst hbm)
        have hlkb := lookupKV_eq_some_of_mem hInv.1 hbm
        rw [hlook _ hq] at hlkb
        rw [hall _ (fun h => hq (Or.inl h)) (fun h => hq (Or.inr h))] at hlkb
        simp at hlkb
    · intro l hl1 hl2 htl
      have hgq : ¬ (l = "" ∨ l = "English") := by
        rintro (h | h)
        · exact hl1 h
        · exact hl2 h
      have hlkl := hlook l hgq
      rw [if_neg htl] at hlkl
      rcases hInv.2 with ⟨hnil, _, _⟩ | ⟨hbm, hdom⟩
      · exfalso
        rw [hnil] at hlkl
        simp [lookupKV] at hlkl
      · have hq := hkeyq _ (List.mem_map_of_mem Prod.fst hbm)
        have hlkB := lookupKV_eq_some_of_mem hInv.1 hbm
        rw [hlook _ hq] at hlkB
        by_cases htB : langTally agents state
            ((agents.filter (fun a => a.state = state)).foldl
              langStep ([], 0, "")).2.2 = 0
        · rw [if_pos htB] at hlkB
          exact absurd hlkB (by simp)
        · rw [if_neg htB] at hlkB
          have hmx : langTally agents state
              ((agents.filter (fun a => a.state = state)).foldl
                langStep ([], 0, "")).2.2 =
              ((agents.filter (fun a => a.state = state)).foldl
                langStep ([], 0, "")).2.1 := Option.some.inj hlkB
          rw [hres]
          refine ⟨fun h => hq (Or.inl h), fun h => hq (Or.inr h), ?_⟩
          intro l2 h21 h22
          have hgq2 : ¬ (l2 = "" ∨ l2 = "English") := by
            rintro (h | h)
            · exact h21 h
            · exact h22 h
          by_cases ht2 : langTally agents state l2 = 0
          · refine ⟨by omega, fun hteq => absurd (hteq ▸ ht2 : _ = 0).symm ?_⟩
            omega
          · have hlk2 := hlook l2 hgq2
            rw [if_neg ht2] at hlk2
            have hm2 := mem_of_lookupKV_eq_some hlk2
            have hd := hdom _ hm2
            have hd1 : langTally agents state l2 ≤
                ((agents.filter (fun a => a.state = state)).foldl
                  langStep ([], 0, "")).2.1 := hd.1
            refine ⟨by omega, fun hteq => ?_⟩
            have hd2 := hd.2 (hteq.trans hmx)
            exact not_lt.mp hd2

/-- Witness for C5: in state `"CA"`, `"Spanish"` and `"Arabic"` are tied at 2
speakers (with `"English"` and another state's language excluded), so the
lexicographically smaller qualifying language wins and the result is
nonempty. -/
theorem c5_most_spoken_language_witness :
    langTally
      [⟨1, "CA", some "Spanish"⟩, ⟨2, "CA", some "Spanish"⟩, ⟨3, "CA", some "Arabic"⟩,
       ⟨4, "CA", some "Arabic"⟩, ⟨5, "CA", some "English"⟩, ⟨6, "TX", some "French"⟩]
      "CA" "Arabic" ≠ 0 ∧
    getMostSpokenAgentLanguageByState
      [⟨1, "CA", some "Spanish"⟩, ⟨2, "CA", some "Spanish"⟩, ⟨3, "CA", some "Arabic"⟩,
       ⟨4, "CA", some "Arabic"⟩, ⟨5, "CA", some "English"⟩, ⟨6, "TX", some "French"⟩]
      "CA" ≠ "" :=
  ⟨by decide,
   ((c5_most_spoken_language
      [⟨1, "CA", some "Spanish"⟩, ⟨2, "CA", some "Spanish"⟩, ⟨3, "CA", some "Arabic"⟩,
       ⟨4, "CA", some "Arabic"⟩, ⟨5, "CA", some "English"⟩, ⟨6, "TX", some "French"⟩]
      "CA").2.2 "Arabic" (by decide) (by decide) (by decide)).1⟩

/-! ### Top three months by total claim cost (C4) -/

theorem lookupKV_addKV_self {α : Type} [DecidableEq α] (m : List (α × ℚ)) (k : α) (q : ℚ) :
    lookupKV (addKV m k q) k = some ((lookupKV m k).getD 0 + q) := by
  unfold addKV
  cases h : lookupKV m k <;> simp [h, lookupKV_setKV_self]

theorem lookupKV_addKV_ne {α : Type} [DecidableEq α] (m : List (α × ℚ)) {k k' : α}
    (q : ℚ) (h : k ≠ k') : lookupKV (addKV m k q) k' = lookupKV m k' := by
  unfold addKV
  cases h2 : lookupKV m k <;> simp [lookupKV_setKV_ne m _ h]

theorem mem_keysOf_addKV {α : Type} [DecidableEq α] (m : List (α × ℚ)) (k : α) (q : ℚ)
    (k' : α) : k' ∈ keysOf (addKV m k q) ↔ k' ∈ keysOf m ∨ k' = k := by
  unfold addKV
  cases h : lookupKV m k <;> simp [mem_keysOf_setKV]

theorem nodup_keysOf_addKV {α : Type} [DecidableEq α] (m : List (α × ℚ)) (k : α) (q : ℚ)
    (h : (keysOf m).Nodup) : (keysOf (addKV m k q)).Nodup := by
  unfold addKV
  cases h2 : lookupKV m k <;> exact nodup_keysOf_setKV _ _ _ h

/-- Folding the accumulation step over key-value pairs: the final entry of a
key is its starting value plus the sum of the values paired with it, the
entry being created exactly when the key occurs. -/
theorem lookupKV_foldl_addKV {α : Type} [DecidableEq α] :
    ∀ (ps : List (α × ℚ)) (m : List (α × ℚ)) (k : α),
      lookupKV (ps.foldl (fun m p => addKV m p.1 p.2) m) k =
        match lookupKV m k with
        | some v => some (v + ((ps.filter (fun p => p.1 = k)).map Prod.snd).sum)
        | none =>
          if ps.filter (fun p => p.1 = k) = [] then none
          else some ((ps.filter (fun p => p.1 = k)).map Prod.snd).sum := by
  intro ps
  induction ps with
  | nil => intro m k; cases h : lookupKV m k <;> simp [h]
  | cons p ps ih =>
    intro m k
    obtain ⟨a, q⟩ := p
    rw [List.foldl_cons, ih]
    by_cases hak : a = k
    · subst hak
      rw [lookupKV_addKV_self]
      rw [List.filter_cons_of_pos (by simp)]
      cases h : lookupKV m a <;>
        simp [h, List.map_cons, List.sum_cons] <;> try ring
    · rw [lookupKV_addKV_ne m q hak]
      rw [List.filter_cons_of_neg (by simp [hak])]

theorem mem_keysOf_foldl_addKV {α : Type} [DecidableEq α] :
    ∀ (ps : List (α × ℚ)) (m : List (α × ℚ)) (k : α),
      k ∈ keysOf (ps.foldl (fun m p => addKV m p.1 p.2) m) ↔
        k ∈ keysOf m ∨ k ∈ ps.map Prod.fst := by
  intro ps
  induction ps with
  | nil => intro m k; simp
  | cons p ps ih =>
    intro m k
    rw [List.foldl_cons, ih]
    simp [mem_keysOf_addKV]
    tauto

theorem nodup_keysOf_foldl_addKV {α : Type} [DecidableEq α] :
    ∀ (ps : List (α × ℚ)) (m : List (α × ℚ)), (keysOf m).Nodup →
      (keysOf (ps.foldl (fun m p => addKV m p.1 p.2) m)).Nodup := by
  intro ps
  induction ps with
  | nil => intro m h; exact h
  | cons p ps ih => intro m h; exact ih _ (nodup_keysOf_addKV _ _ _ h)

/-- The month-and-year bucket of a claim: `undefined` when its `disaster_id`
resolves to no loaded disaster, otherwise the `"Month Year"` key of the
disaster's `declared_date`. -/
def claimBucket (disasters : List Disaster) (c : Claim) : Option String :=
  (disasters.find? (fun d => d.id = c.disaster_id)).map
    (fun d => monthYearKey d.declared_date)

/-- Spec-side bucket total: the exact (unrounded) sum of `estimate_cost` over
the claims whose bucket is `k`. -/
def bucketSum (claims : List Claim) (disasters : List Disaster) (k : String) : ℚ :=
  ((claims.filter (fun c => claimBucket disasters c = some k)).map
    Claim.estimate_cost).sum

/-- The bucket-building loop processes exactly the resolvable claims, as
(bucket, cost) pairs in claim order. -/
theorem monthClaimCosts_eq_foldl (claims : List Claim) (disasters : List Disaster) :
    monthClaimCosts claims disasters =
      (claims.filterMap (fun c =>
        (claimBucket disasters c).map (fun b => (b, c.estimate_cost)))).foldl
        (fun m p => addKV m p.1 p.2) [] := by
  rw [monthClaimCosts]
  generalize ([] : List (String × ℚ)) = m
  induction claims generalizing m with
  | nil => rfl
  | cons c rest ih =>
    rw [List.foldl_cons]
    cases hf : disasters.find? (fun d => d.id = c.disaster_id) with
    | none =>
      have h1 : claimBucket disasters c = none := by simp [claimBucket, hf]
      rw [List.filterMap_cons_none (by simp [h1])]
      exact ih m
    | some d =>
      have hfc2 : (fun c : Claim =>
          Option.map (fun b => (b, c.estimate_cost)) (claimBucket disasters c)) c =
          some (monthYearKey d.declared_date, c.estimate_cost) := by
        simp [claimBucket, hf]
      rw [@List.filterMap_cons_some Claim (String × ℚ)
          (fun c : Claim =>
            Option.map (fun b => (b, c.estimate_cost)) (claimBucket disasters c))
          c rest (monthYearKey d.declared_date, c.estimate_cost) hfc2,
        List.foldl_cons]
      exact ih (addKV m (monthYearKey d.declared_date) c.estimate_cost)

/-- Filtering the (bucket, cost) pairs by bucket and the claims by bucket
yield the same cost lists. -/
theorem pairs_filter_eq (disasters : List Disaster) (k : String) :
    ∀ claims : List Claim,
      (((claims.filterMap (fun c =>
          (claimBucket disasters c).map (fun b => (b, c.estimate_cost)))).filter
        (fun p => p.1 = k)).map Prod.snd) =
        ((claims.filter (fun c => claimBucket disasters c = some k)).map
          Claim.estimate_cost) := by
  intro claims
  induction claims with
  | nil => rfl
  | cons c rest ih =>
    cases hb : claimBucket disasters c with
    | none =>
      rw [List.filterMap_cons_none (by simp [hb])]
      rw [List.filter_cons_of_neg (by simp [hb])]
      exact ih
    | some b =>
      have hfc2 : (fun c : Claim =>
          Option.map (fun b => (b, c.estimate_cost)) (claimBucket disasters c)) c =
          some (b, c.estimate_cost) := by
        simp [hb]
      rw [@List.filterMap_cons_some Claim (String × ℚ)
          (fun c : Claim =>
            Option.map (fun b => (b, c.estimate_cost)) (claimBucket disasters c))
          c rest (b, c.estimate_cost) hfc2]
      by_cases hbk : b = k
      · subst hbk
        rw [List.filter_cons_of_pos (by simp)]
        rw [List.filter_cons_of_pos (by simp [hb])]
        simp only [List.map_cons, ih]
      · rw [List.filter_cons_of_neg (by simp [hbk])]
        rw [List.filter_cons_of_neg (by simp [hb, hbk])]
        exact ih

theorem lookupKV_foldl_addKV_nil {α : Type} [DecidableEq α] (ps : List (α × ℚ)) (k : α) :
    lookupKV (ps.foldl (fun m p => addKV m p.1 p.2) []) k =
      if ps.filter (fun p => p.1 = k) = [] then none
      else some ((ps.filter (fun p => p.1 = k)).map Prod.snd).sum := by
  rw [lookupKV_foldl_addKV]
  rfl

theorem lookupKV_monthClaimCosts (claims : List Claim) (disasters : List Disaster)
    (k : String) :
    lookupKV (monthClaimCosts claims disasters) k =
      if claims.filter (fun c => claimBucket disasters c = some k) = [] then none
      else some (bucketSum claims disasters k) := by
  rw [monthClaimCosts_eq_foldl, lookupKV_foldl_addKV_nil]
  have hmap := pairs_filter_eq disasters k claims
  have hnil : ((claims.filterMap (fun c =>
      (claimBucket disasters c).map (fun b => (b, c.estimate_cost)))).filter
        (fun p => p.1 = k) = []) ↔
      claims.filter (fun c => claimBucket disasters c = some k) = [] := by
    constructor
    · intro h
      have h2 : (claims.filter (fun c => claimBucket disasters c = some k)).map
          Claim.estimate_cost = [] := by
        rw [← hmap, h]
        rfl
      exact List.map_eq_nil_iff.mp h2
    · intro h
      have h2 : ((claims.filterMap (fun c =>
          (claimBucket disasters c).map (fun b => (b, c.estimate_cost)))).filter
            (fun p => p.1 = k)).map Prod.snd = [] := by
        rw [hmap, h]
        rfl
      exact List.map_eq_nil_iff.mp h2
  rw [hmap]
  simp only [hnil]
  rfl

theorem mem_keysOf_monthClaimCosts (claims : List Claim) (disasters : List Disaster)
    (k : String) :
    k ∈ keysOf (monthClaimCosts claims disasters) ↔
      claims.filter (fun c => claimBucket disasters c = some k) ≠ [] := by
  constructor
  · intro hk hf
    have h0 : lookupKV (monthClaimCosts claims disasters) k = none := by
      rw [lookupKV_monthClaimCosts, if_pos hf]
    exact (lookupKV_eq_none_iff _ _).mp h0 hk
  · intro hf
    by_contra hk
    have h0 := (lookupKV_eq_none_iff (monthClaimCosts claims disasters) k).mpr hk
    rw [lookupKV_monthClaimCosts, if_neg hf] at h0
    exact Option.noConfusion h0

theorem nodup_keysOf_monthClaimCosts (claims : List Claim) (disasters : List Disaster) :
    (keysOf (monthClaimCosts claims disasters)).Nodup := by
  rw [monthClaimCosts_eq_foldl]
  exact nodup_keysOf_foldl_addKV _ _ (by simp [keysOf])

theorem bucketLE_total (m : List (String × ℚ)) :
    ∀ a b, bucketLE m a b ∨ bucketLE m b a := by
  intro a b
  rcases lt_trichotomy (costOf m a) (costOf m b) with h | h | h
  · exact Or.inr (Or.inl h)
  · rcases le_total a b with h2 | h2
    · exact Or.inl (Or.inr ⟨h, h2⟩)
    · exact Or.inr (Or.inr ⟨h.symm, h2⟩)
  · exact Or.inl (Or.inl h)

theorem bucketLE_trans (m : List (String × ℚ)) :
    ∀ a b c, bucketLE m a b → bucketLE m b c → bucketLE m a c := by
  intro a b c hab hbc
  rcases hab with h1 | ⟨h1, h1b⟩ <;> rcases hbc with h2 | ⟨h2, h2b⟩
  · exact Or.inl (lt_trans h2 h1)
  · exact Or.inl (by rw [← h2]; exact h1)
  · exact Or.inl (by rw [h1]; exact h2)
  · exact Or.inr ⟨h1.trans h2, le_trans h1b h2b⟩

/-- **C4.** The top-three-months query returns at most 3 bucket keys; every
returned key is the month-and-year bucket of some claim whose disaster
resolves (dangling claims feed no bucket); when it returns fewer than 3 keys
it returns every existing bucket; the keys are strictly ordered by
descending exact bucket sum with ties broken by ascending lexicographic
order; and the returned keys are the first of the descending sort: every
returned key strictly precedes — higher exact sum, or equal sum and smaller
name — every existing bucket that is not returned. -/
theorem c4_top_three_months (claims : List Claim) (disasters : List Disaster) :
    (getTopThreeMonthsWithHighestNumOfClaimsDesc claims disasters).length ≤ 3 ∧
    (∀ k ∈ getTopThreeMonthsWithHighestNumOfClaimsDesc claims disasters,
      claims.filter (fun c => claimBucket disasters c = some k) ≠ []) ∧
    ((getTopThreeMonthsWithHighestNumOfClaimsDesc claims disasters).length < 3 →
      ∀ k : String, claims.filter (fun c => claimBucket disasters c = some k) ≠ [] →
        k ∈ getTopThreeMonthsWithHighestNumOfClaimsDesc claims disasters) ∧
    (getTopThreeMonthsWithHighestNumOfClaimsDesc claims disasters).Pairwise
      (fun a b => bucketSum claims disasters b < bucketSum claims disasters a ∨
        (bucketSum claims disasters a = bucketSum claims disasters b ∧ a < b)) ∧
    (∀ k ∈ getTopThreeMonthsWithHighestNumOfClaimsDesc claims disasters,
      ∀ k2 : String,
        claims.filter (fun c => claimBucket disasters c = some k2) ≠ [] →
        k2 ∉ getTopThreeMonthsWithHighestNumOfClaimsDesc claims disasters →
        (bucketSum claims disasters k2 < bucketSum claims disasters k ∨
          (bucketSum claims disasters k = bucketSum claims disasters k2 ∧ k < k2))) := by
  have hout : getTopThreeMonthsWithHighestNumOfClaimsDesc claims disasters =
      (List.insertionSort (bucketLE (monthClaimCosts claims disasters))
        (keysOf (monthClaimCosts claims disasters))).take 3 := rfl
  haveI hto : IsTotal String (bucketLE (monthClaimCosts claims disasters)) :=
    ⟨bucketLE_total _⟩
  haveI htr : IsTrans String (bucketLE (monthClaimCosts claims disasters)) :=
    ⟨bucketLE_trans _⟩
  have hsorted := List.sorted_insertionSort
    (bucketLE (monthClaimCosts claims disasters))
    (keysOf (monthClaimCosts claims disasters))
  have hmemkeys : ∀ k, k ∈ getTopThreeMonthsWithHighestNumOfClaimsDesc claims disasters →
      k ∈ keysOf (monthClaimCosts claims disasters) := by
    intro k hk
    rw [hout] at hk
    exact (List.mem_insertionSort _).mp ((List.take_sublist _ _).subset hk)
  have hcost : ∀ k, k ∈ keysOf (monthClaimCosts claims disasters) →
      costOf (monthClaimCosts claims disasters) k = bucketSum claims disasters k := by
    intro k hk
    have hf := (mem_keysOf_monthClaimCosts claims disasters k).mp hk
    rw [costOf, lookupKV_monthClaimCosts, if_neg hf]
    rfl
  refine ⟨?_, ?_, ?_, ?_, ?_⟩
  · rw [hout, List.length_take]
    exact min_le_left _ _
  · intro k hk
    exact (mem_keysOf_monthClaimCosts claims disasters k).mp (hmemkeys k hk)
  · intro hl k hf
    have hk : k ∈ keysOf (monthClaimCosts claims disasters) :=
      (mem_keysOf_monthClaimCosts claims disasters k).mpr hf
    have hks : k ∈ List.insertionSort (bucketLE (monthClaimCosts claims disasters))
        (keysOf (monthClaimCosts claims disasters)) :=
      (List.mem_insertionSort _).mpr hk
    rw [hout, List.length_take] at hl
    have hlen : (List.insertionSort (bucketLE (monthClaimCosts claims disasters))
        (keysOf (monthClaimCosts claims disasters))).length ≤ 3 := by omega
    rw [hout, List.take_of_length_le hlen]
    exact hks
  · have hnodup : (getTopThreeMonthsWithHighestNumOfClaimsDesc claims
        disasters).Nodup := by
      rw [hout]
      exact ((List.perm_insertionSort _ _).nodup_iff.mpr
        (nodup_keysOf_monthClaimCosts claims disasters)).sublist
        (List.take_sublist _ _)
    have hpw : (getTopThreeMonthsWithHighestNumOfClaimsDesc claims disasters).Pairwise
        (bucketLE (monthClaimCosts claims disasters)) := by
      rw [hout]
      exact List.Pairwise.sublist (List.take_sublist _ _) hsorted
    have hcomb := hpw.and hnodup
    refine hcomb.imp_of_mem ?_
    intro a b ha hb hab
    have hca := hcost a (hmemkeys a ha)
    have hcb := hcost b (hmemkeys b hb)
    rcases hab.1 with h1 | ⟨h1, h1b⟩
    · left
      rw [← hca, ← hcb]
      exact h1
    · right
      exact ⟨by rw [← hca, ← hcb]; exact h1, lt_of_le_of_ne h1b hab.2⟩
  · intro k hk k2 hf2 hnk2
    have hkkeys := hmemkeys k hk
    have hk2keys : k2 ∈ keysOf (monthClaimCosts claims disasters) :=
      (mem_keysOf_monthClaimCosts claims disasters k2).mpr hf2
    have hk2sorted : k2 ∈ List.insertionSort
        (bucketLE (monthClaimCosts claims disasters))
        (keysOf (monthClaimCosts claims disasters)) :=
      (List.mem_insertionSort _).mpr hk2keys
    have hsplit := List.take_append_drop 3
      (List.insertionSort (bucketLE (monthClaimCosts claims disasters))
        (keysOf (monthClaimCosts claims disasters)))
    have hpwapp : ((List.insertionSort (bucketLE (monthClaimCosts claims disasters))
          (keysOf (monthClaimCosts claims disasters))).take 3 ++
        (List.insertionSort (bucketLE (monthClaimCosts claims disasters))
          (keysOf (monthClaimCosts claims disasters))).drop 3).Pairwise
        (bucketLE (monthClaimCosts claims disasters)) := by
      rw [hsplit]
      exact hsorted
    have hk2drop : k2 ∈ (List.insertionSort
        (bucketLE (monthClaimCosts claims disasters))
        (keysOf (monthClaimCosts claims disasters))).drop 3 := by
      have hk2app : k2 ∈ (List.insertionSort
          (bucketLE (monthClaimCosts claims disasters))
          (keysOf (monthClaimCosts claims disasters))).take 3 ++
          (List.insertionSort (bucketLE (monthClaimCosts claims disasters))
            (keysOf (monthClaimCosts claims disasters))).drop 3 := by
        rw [hsplit]
        exact hk2sorted
      rcases List.mem_append.mp hk2app with h | h
      · exact absurd (show k2 ∈ getTopThreeMonthsWithHighestNumOfClaimsDesc
          claims disasters by rw [hout]; exact h) hnk2
      · exact h
    have hktake : k ∈ (List.insertionSort
        (bucketLE (monthClaimCosts claims disasters))
        (keysOf (monthClaimCosts claims disasters))).take 3 := by
      rw [← hout]
      exact hk
    have hR : bucketLE (monthClaimCosts claims disasters) k k2 :=
      (List.pairwise_append.mp hpwapp).2.2 k hktake k2 hk2drop
    have hca := hcost k hkkeys
    have hcb := hcost k2 hk2keys
    have hne : k ≠ k2 := fun he => hnk2 (he ▸ hk)
    rcases hR with h1 | ⟨h1, h1b⟩
    · left
      rw [← hca, ← hcb]
      exact h1
    · right
      exact ⟨by rw [← hca, ← hcb]; exact h1, lt_of_le_of_ne h1b hne⟩

/-- Witness for C4: two resolvable buckets (February 2023 at cost 200 beats
January 2023 at cost 100) and one claim with a dangling `disaster_id`; with
fewer than 3 buckets every bucket is returned.  A second, four-bucket input
(January–April 2023 at costs 100–400) exercises the dominance conjunct: the
omitted bucket January 2023 is beaten by the returned bucket April 2023. -/
theorem c4_top_three_months_witness :
    "February 2023" ∈ getTopThreeMonthsWithHighestNumOfClaimsDesc
      [⟨1, 1, 1, 1, "Open", 100, 5⟩, ⟨2, 2, 1, 1, "Open", 200, 5⟩,
       ⟨3, 99, 1, 1, "Open", 500, 5⟩]
      [⟨1, "California", ⟨2023, 1⟩, 10⟩, ⟨2, "California", ⟨2023, 2⟩, 10⟩] ∧
    List.filter
      (fun c => claimBucket
        [⟨1, "California", ⟨2023, 1⟩, 10⟩, ⟨2, "California", ⟨2023, 2⟩, 10⟩] c =
          some "January 2023")
      [⟨1, 1, 1, 1, "Open", 100, 5⟩, ⟨2, 2, 1, 1, "Open", 200, 5⟩,
       ⟨3, 99, 1, 1, "Open", 500, 5⟩] ≠ [] ∧
    (bucketSum
        [⟨1, 1, 1, 1, "Open", 100, 5⟩, ⟨2, 2, 1, 1, "Open", 200, 5⟩,
         ⟨3, 3, 1, 1, "Open", 300, 5⟩, ⟨4, 4, 1, 1, "Open", 400, 5⟩]
        [⟨1, "California", ⟨2023, 1⟩, 10⟩, ⟨2, "California", ⟨2023, 2⟩, 10⟩,
         ⟨3, "California", ⟨2023, 3⟩, 10⟩, ⟨4, "California", ⟨2023, 4⟩, 10⟩]
        "January 2023" <
      bucketSum
        [⟨1, 1, 1, 1, "Open", 100, 5⟩, ⟨2, 2, 1, 1, "Open", 200, 5⟩,
         ⟨3, 3, 1, 1, "Open", 300, 5⟩, ⟨4, 4, 1, 1, "Open", 400, 5⟩]
        [⟨1, "California", ⟨2023, 1⟩, 10⟩, ⟨2, "California", ⟨2023, 2⟩, 10⟩,
         ⟨3, "California", ⟨2023, 3⟩, 10⟩, ⟨4, "California", ⟨2023, 4⟩, 10⟩]
        "April 2023" ∨
      (bucketSum
        [⟨1, 1, 1, 1, "Open", 100, 5⟩, ⟨2, 2, 1, 1, "Open", 200, 5⟩,
         ⟨3, 3, 1, 1, "Open", 300, 5⟩, ⟨4, 4, 1, 1, "Open", 400, 5⟩]
        [⟨1, "California", ⟨2023, 1⟩, 10⟩, ⟨2, "California", ⟨2023, 2⟩, 10⟩,
         ⟨3, "California", ⟨2023, 3⟩, 10⟩, ⟨4, "California", ⟨2023, 4⟩, 10⟩]
        "April 2023" =
       bucketSum
        [⟨1, 1, 1, 1, "Open", 100, 5⟩, ⟨2, 2, 1, 1, "Open", 200, 5⟩,
         ⟨3, 3, 1, 1, "Open", 300, 5⟩, ⟨4, 4, 1, 1, "Open", 400, 5⟩]
        [⟨1, "California", ⟨2023, 1⟩, 10⟩, ⟨2, "California", ⟨2023, 2⟩, 10⟩,
         ⟨3, "California", ⟨2023, 3⟩, 10⟩, ⟨4, "California", ⟨2023, 4⟩, 10⟩]
        "January 2023" ∧ ("April 2023" : String) < "January 2023")) :=
  ⟨(c4_top_three_months
      [⟨1, 1, 1, 1, "Open", 100, 5⟩, ⟨2, 2, 1, 1, "Open", 200, 5⟩,
       ⟨3, 99, 1, 1, "Open", 500, 5⟩]
      [⟨1, "California", ⟨2023, 1⟩, 10⟩, ⟨2, "California", ⟨2023, 2⟩, 10⟩]).2.2.1
    (by decide) "February 2023" (by decide),
   (c4_top_three_months
      [⟨1, 1, 1, 1, "Open", 100, 5⟩, ⟨2, 2, 1, 1, "Open", 200, 5⟩,
       ⟨3, 99, 1, 1, "Open", 500, 5⟩]
      [⟨1, "California", ⟨2023, 1⟩, 10⟩, ⟨2, "California", ⟨2023, 2⟩, 10⟩]).2.1
    "January 2023" (by decide),
   (c4_top_three_months
      [⟨1, 1, 1, 1, "Open", 100, 5⟩, ⟨2, 2, 1, 1, "Open", 200, 5⟩,
       ⟨3, 3, 1, 1, "Open", 300, 5⟩, ⟨4, 4, 1, 1, "Open", 400, 5⟩]
      [⟨1, "California", ⟨2023, 1⟩, 10⟩, ⟨2, "California", ⟨2023, 2⟩, 10⟩,
       ⟨3, "California", ⟨2023, 3⟩, 10⟩,
       ⟨4, "California", ⟨2023, 4⟩, 10⟩]).2.2.2.2
    "April 2023" (by decide) "January 2023" (by decide) (by decide)⟩
